import Mathlib

/-! # Verification of the InDesign/Acrobat conversion orchestration core

Shallow embedding of the conversion/comparison process controller of this
repository: the diagnostic parser `parseMissingFonts` and the permanent font
installer of the upload route, the convert retry controller of the upload
route, the process supervisor / outcome classifier of the InDesign service,
and the Acrobat comparison controller with its artifact discovery.

Strings are modelled as lists of characters; the JavaScript operations used
by the code (String.prototype.includes, trim, split on newline) are given
executable counterparts below.
-/

set_option maxHeartbeats 1000000
set_option maxRecDepth 4000

namespace Adobe

/-- Whitespace as trimmed by JavaScript String.prototype.trim (ASCII part). -/
def isJsWs (c : Char) : Bool :=
  c = ' ' || c = '\t' || c = '\n' || c = '\r' || c = '\x0b' || c = '\x0c'

/-- Does `pat` occur at the start of `cs`? -/
def startsWithL : List Char → List Char → Bool
  | [], _ => true
  | _ :: _, [] => false
  | a :: as, b :: bs => if a = b then startsWithL as bs else false

/-- JavaScript `cs.includes(pat)`: `pat` occurs contiguously somewhere in `cs`. -/
def containsL (pat : List Char) : List Char → Bool
  | [] => startsWithL pat []
  | c :: cs => startsWithL pat (c :: cs) || containsL pat cs

/-- JavaScript `s.includes(pat)` on Lean strings. -/
def strContains (s pat : String) : Bool := containsL pat.data s.data

/-- Left trim. -/
def trimLeftL (cs : List Char) : List Char := cs.dropWhile isJsWs

/-- JavaScript `s.trim()`. -/
def trimL (cs : List Char) : List Char :=
  ((trimLeftL cs).reverse.dropWhile isJsWs).reverse

/-- JavaScript `s.split('\n')` (never returns an empty list). -/
def splitNlL : List Char → List (List Char)
  | [] => [[]]
  | c :: cs =>
    if c = '\n' then [] :: splitNlL cs
    else
      match splitNlL cs with
      | [] => [[c]]
      | l :: ls => (c :: l) :: ls

/-- JavaScript `lines.join('\n')`. -/
def joinNlL : List (List Char) → List Char
  | [] => []
  | [l] => l
  | l :: ls => l ++ '\n' :: joinNlL ls

def isUpperAZ (c : Char) : Bool := 'A' ≤ c && c ≤ 'Z'

def isLowerAZ (c : Char) : Bool := 'a' ≤ c && c ≤ 'z'

def isDigit09 (c : Char) : Bool := '0' ≤ c && c ≤ '9'

/-! ## parseMissingFonts (Backend/routes/upload.js)

The structured line parser walks the error message line by line: a line
containing "Missing Fonts" opens the font section, a line containing
"following fonts are" is the sub-header, and afterwards each candidate line
is matched against the regex `([A-Z][A-Za-z0-9\s\-()]+)`; the matched text
is trimmed and accepted when nonempty, longer than 2 characters, and free of
the terminator words "Solutions" and "Available". A blank line (other than
the at most two immediately after the sub-header) or a line containing a
terminator word ends the section. -/

/-- Character class of the font-name regex `[A-Za-z0-9\s\-()]`, restricted to
whitespace that can occur within a single line (the matched text never spans
lines, so the newline member of `\s` is irrelevant). -/
def isFontChar (c : Char) : Bool :=
  isUpperAZ c || isLowerAZ c || isDigit09 c || c = ' ' || c = '\t' || c = '-' || c = '(' || c = ')'

def headFontChar : List Char → Bool
  | [] => false
  | c :: _ => isFontChar c

/-- First match of `([A-Z][A-Za-z0-9\s\-()]+)` in a line: the regex engine
scans left to right for an uppercase letter followed by at least one class
character and then takes the longest run of class characters. -/
def firstFontMatch : List Char → Option (List Char)
  | [] => none
  | c :: cs =>
    if isUpperAZ c && headFontChar cs then some (c :: cs.takeWhile isFontChar)
    else firstFontMatch cs

def fontsHeader : List Char := "Missing Fonts".data

def fontsSubHeader : List Char := "following fonts are".data

def stopSolutions : List Char := "Solutions".data

def stopAvailable : List Char := "Available".data

/-- The structured line loop of `parseMissingFonts`, with state
`inSec` (= `inFontSection`), `foundHdr` (= `foundFontListHeader`) and
`cnt` (= `linesSinceHeader`); `acc` accumulates accepted names in reverse. -/
def parseLoop : List (List Char) → Bool → Bool → Nat → List (List Char) → List (List Char)
  | [], _, _, _, acc => acc.reverse
  | line :: rest, inSec, foundHdr, cnt, acc =>
    if containsL fontsHeader line then
      parseLoop rest true foundHdr cnt acc
    else if inSec && containsL fontsSubHeader line then
      parseLoop rest inSec true cnt acc
    else if inSec && foundHdr then
      let cnt' := cnt + 1
      let t := trimL line
      if t.isEmpty && cnt' < 3 then
        parseLoop rest inSec foundHdr cnt' acc
      else if t.isEmpty || containsL stopSolutions t || containsL stopAvailable t then
        acc.reverse
      else
        match firstFontMatch t with
        | some m =>
          let name := trimL m
          if !name.isEmpty && name.length > 2 &&
              !containsL stopSolutions name && !containsL stopAvailable name then
            parseLoop rest inSec foundHdr cnt' (name :: acc)
          else
            parseLoop rest inSec foundHdr cnt' acc
        | none => parseLoop rest inSec foundHdr cnt' acc
    else
      parseLoop rest inSec foundHdr cnt acc

/-! ### Regex fallback of parseMissingFonts

Used only when the structured loop found nothing and the message still
contains "Missing Fonts". Pattern (with the case-insensitive flag, so the
letter classes match any ASCII letter):
`([A-Z][a-z]+(?:-[A-Z][a-z]+)*)\s*(?:\([^)]+\))?\s*(Thin|ExtraLight|Light|Regular|Medium|SemiBold|Bold|ExtraBold|Black|[\d]+)?`.
No claim below depends on the values this fallback produces; the claims only
depend on the "Missing Fonts" gate in front of it. The greedy left-to-right
scan below mirrors matchAll without the (here irrelevant) backtracking. -/

def isAsciiLetter (c : Char) : Bool := isUpperAZ c || isLowerAZ c

def lowerAZ (c : Char) : Char :=
  if isUpperAZ c then Char.ofNat (c.toNat + 32) else c

def ciEq (a b : Char) : Bool := lowerAZ a = lowerAZ b

def ciStartsWith : List Char → List Char → Bool
  | [], _ => true
  | _ :: _, [] => false
  | a :: as, b :: bs => ciEq a b && ciStartsWith as bs

/-- One `[A-Z][a-z]+` word (case-insensitively: two or more letters). -/
def matchWordCI : List Char → Option (List Char × List Char)
  | [] => none
  | c :: cs =>
    if isAsciiLetter c then
      let w := cs.takeWhile isAsciiLetter
      if w.isEmpty then none else some (c :: w, cs.drop w.length)
    else none

/-- The `(?:-[A-Z][a-z]+)*` repetition, fuel-bounded by the input length. -/
def hyphWords : Nat → List Char → List Char × List Char
  | 0, cs => ([], cs)
  | fuel + 1, cs =>
    match cs with
    | '-' :: rest =>
      match matchWordCI rest with
      | some (w, rest') =>
        let (more, rest'') := hyphWords fuel rest'
        ('-' :: (w ++ more), rest'')
      | none => ([], cs)
    | _ => ([], cs)

/-- The optional `\([^)]+\)` group. -/
def parenGroup : List Char → List Char
  | '(' :: rest =>
    let inside := rest.takeWhile (fun c => c ≠ ')')
    match rest.drop inside.length with
    | ')' :: rest' => if inside.isEmpty then '(' :: rest else rest'
    | _ => '(' :: rest
  | cs => cs

def weightKws : List (List Char) :=
  ["Thin".data, "ExtraLight".data, "Light".data, "Regular".data, "Medium".data,
   "SemiBold".data, "Bold".data, "ExtraBold".data, "Black".data]

/-- The optional weight group: the first alternation branch matching at the
position (case-insensitively), or a digit run. Returns matched text. -/
def matchWeight (cs : List Char) : Option (List Char) :=
  match weightKws.find? (fun kw => ciStartsWith kw cs) with
  | some kw => some (cs.take kw.length)
  | none =>
    let ds := cs.takeWhile isDigit09
    if ds.isEmpty then none else some ds

/-- Attempt the fallback pattern at the current position; on success return
the family, the optional weight, and the rest of the input. -/
def tryFallbackAt (cs : List Char) : Option (List Char × Option (List Char) × List Char) :=
  match matchWordCI cs with
  | none => none
  | some (w, rest) =>
    let (more, rest') := hyphWords rest.length rest
    let family := w ++ more
    let afterWs := rest'.dropWhile isJsWs
    let afterParen := parenGroup afterWs
    let afterWs2 := afterParen.dropWhile isJsWs
    match matchWeight afterWs2 with
    | some wt => some (family, some wt, afterWs2.drop wt.length)
    | none => some (family, none, rest')

/-- matchAll-style scan: advance past each match, or by one character on a
failed position. -/
def scanAll : Nat → List Char → List (List Char × Option (List Char))
  | 0, _ => []
  | fuel + 1, cs =>
    match cs with
    | [] => []
    | c :: cs' =>
      match tryFallbackAt (c :: cs') with
      | some (fam, wt, rest) => (fam, wt) :: scanAll fuel rest
      | none => scanAll fuel cs'

/-- Set-insertion-order deduplication. -/
def dedupKeep : List String → List String → List String
  | [], _ => []
  | x :: xs, seen => if seen.contains x then dedupKeep xs seen else x :: dedupKeep xs (x :: seen)

def fallbackSkipWords : List String :=
  ["Missing", "Fonts", "The", "Following", "Available", "Solutions", "Document"]

/-- The regex fallback of `parseMissingFonts`. -/
def fallbackFonts (msg : String) : List String :=
  let ms := scanAll (msg.data.length + 1) msg.data
  let names := ms.filterMap (fun fw =>
    let family := String.mk fw.1
    if fallbackSkipWords.contains family then none
    else match fw.2 with
      | some wt => some (family ++ " " ++ String.mk wt)
      | none => some family)
  dedupKeep names []

/-- parseMissingFonts (Backend/routes/upload.js): structured line parse, then
the regex fallback when that found nothing and the message contains
"Missing Fonts". -/
def parseMissingFonts (msg : String) : List String :=
  let fonts := (parseLoop (splitNlL msg.data) false false 0 []).map (fun cs => String.mk cs)
  if fonts.isEmpty && strContains msg "Missing Fonts" then fallbackFonts msg
  else fonts

/-! ## Path helpers (Node.js path.basename / path.extname / path.join) -/

def pjoin (dir name : String) : String := dir ++ "/" ++ name

/-- Node path.basename: the part after the last path separator. -/
def basenameL (cs : List Char) : List Char :=
  (cs.reverse.takeWhile (fun c => c ≠ '/')).reverse

/-- Node path.extname applied to a basename: from the last dot, except when
that dot is the leading character (hidden files have no extension). -/
def extnameOfBase (b : List Char) : List Char :=
  let t := b.reverse.takeWhile (fun c => c ≠ '.')
  if t.length + 1 = b.length then []
  else if t.length < b.length then '.' :: t.reverse
  else []

def endsWithL (suf cs : List Char) : Bool := startsWithL suf.reverse cs.reverse

/-- Node path.basename(p, ext): strip `ext` when it is a proper suffix. -/
def stripSuffixL (b suf : List Char) : List Char :=
  if !suf.isEmpty && suf ≠ b && endsWithL suf b then b.take (b.length - suf.length) else b

def basenameStr (p : String) : String := String.mk (basenameL p.data)

/-- `path.basename(p, path.extname(p))`: the file name without its extension. -/
def basenameNoExt (p : String) : String :=
  let b := basenameL p.data
  String.mk (stripSuffixL b (extnameOfBase b))

/-- `path.basename(p, ext)` for an explicit extension. -/
def basenameMinus (p : String) (ext : String) : String :=
  String.mk (stripSuffixL (basenameL p.data) ext.data)

/-! ## Process supervisor and outcome classifier
(Backend/services/indesignService.js, runInDesignWithScript)

A supervised invocation is summarised by a `ProcOutcome`: whether the
wall-clock timeout callback fired while the promise was still unsettled,
whether the spawn emitted an error event, and the exit code and captured
output of the close event. The promise settles exactly once; later
resolve/reject calls are no-ops, modelled by taking the first settle event. -/

structure ProcOutcome where
  timedOut : Bool
  launchError : Option String
  exitCode : Option Int
  stdoutS : String
  stderrS : String
deriving DecidableEq

inductive RunSettle where
  | resolved
  | rejected (code : Option String) (msg : String)
deriving DecidableEq

/-- The benign macOS stderr noise filtered out by the close handler. -/
def noiseLine (l : List Char) : Bool :=
  containsL "Class AdobeSimpleURLSession".data l ||
  containsL "objc[".data l ||
  containsL "is implemented in both".data l ||
  containsL "One of the duplicates must be removed".data l

/-- `filteredStderr`: split stderr on newlines, drop noise lines, re-join, trim. -/
def filterStderr (stderr : String) : String :=
  String.mk (trimL (joinNlL ((splitNlL stderr.data).filter (fun l => !noiseLine l))))

/-- Everything after the first occurrence of `pat`, if any. -/
def afterMarker (pat : List Char) : List Char → Option (List Char)
  | [] => if pat.isEmpty then some [] else none
  | c :: cs =>
    if startsWithL pat (c :: cs) then some ((c :: cs).drop pat.length)
    else afterMarker pat cs

/-- Replace literal backslash-n pairs by newlines (`.replace(/\\n/g, '\n')`). -/
def replLitNl : List Char → List Char
  | '\\' :: 'n' :: cs => '\n' :: replLitNl cs
  | c :: cs => c :: replLitNl cs
  | [] => []

/-- JavaScript template interpolation of the close code (null when the process
was terminated by a signal). -/
def exitCodeRepr : Option Int → String
  | some i => toString i
  | none => "null"

/-- Diagnostic extraction of the close handler: the text after the first
"ERROR:" marker in filteredStderr + "\n" + stdout (regex `ERROR:\s*(.+)` with
dotall, so following whitespace is skipped and at least one character must
remain), else the first nonempty of filteredStderr / stdout / a generic exit
message; literal backslash-n pairs become newlines and the result is trimmed.
The subsequent wrapper-boilerplate strip chain of the source (osascript
script-path prefixes, "execution error" phrases, trailing parenthesised
numeric codes, newline-run collapsing) is not modelled here: no claim in this
development depends on the diagnostic after that cleanup. -/
def extractDiagnostic (filtered stdoutS : String) (code : Option Int) : String :=
  let fallbackRaw : String :=
    let base :=
      if !filtered.isEmpty then filtered.data
      else if !stdoutS.isEmpty then stdoutS.data
      else ("Process exited with code " ++ exitCodeRepr code).data
    String.mk (trimL (replLitNl base))
  match afterMarker "ERROR:".data (filtered.data ++ '\n' :: stdoutS.data) with
  | some rest =>
    let r := rest.dropWhile isJsWs
    if !r.isEmpty then String.mk (trimL (replLitNl r)) else fallbackRaw
  | none => fallbackRaw

/-- The close handler of runInDesignWithScript: failure when the exit code is
nonzero (or null) or either the filtered stderr or the raw stdout contains the
"ERROR:" marker; otherwise the promise resolves. -/
def closeHandler (exitCode : Option Int) (stdoutS stderrS : String) : RunSettle :=
  if (exitCode != some 0) || strContains (filterStderr stderrS) "ERROR:" ||
      strContains stdoutS "ERROR:" then
    .rejected (some "INDESIGN_CONVERSION_FAILED")
      (extractDiagnostic (filterStderr stderrS) stdoutS exitCode)
  else .resolved

def indesignTimeoutMs : Nat := 5 * 60 * 1000

def indesignGraceMs : Nat := 5000

def indesignTimeoutMsg : String :=
  "InDesign process timed out after 5 minutes. This may indicate missing fonts, missing links, or InDesign waiting for user input."

def firstSettle (evs : List RunSettle) : RunSettle := evs.headD .resolved

/-- runInDesignWithScript as a function of the process outcome: the promise
takes the first settle event. The timeout rejection (when the timeout callback
fired with `isResolved` still false) precedes any later error/close settlement;
both the timeout and the launch rejection carry no error code. On the macOS
path of the source, `indesignPath` has been reassigned to `osascript` before
the spawn, so the launch hint names that binary. -/
def runInDesignWithScript (o : ProcOutcome) : RunSettle :=
  firstSettle
    ((if o.timedOut then [RunSettle.rejected none indesignTimeoutMsg] else []) ++
     (match o.launchError with
      | some m =>
        [RunSettle.rejected none
          ("Failed to launch InDesign: " ++ m ++ ". Please ensure InDesign is installed at: osascript")]
      | none => [closeHandler o.exitCode o.stdoutS o.stderrS]))

structure ConvError where
  code : Option String
  msg : String
deriving DecidableEq

/-- convertInDesignToPDF: input existence check, run the generated script via
the supervisor, then verify the expected artifact `outputDir/<basename>.pdf`
exists on disk; a clean process run without the artifact is the
PDF_NOT_GENERATED failure. The catch-all of the source stamps code
INDESIGN_ERROR on errors that carry none. -/
def convertInDesignToPDF (inputExists : Bool) (o : ProcOutcome) (pdfExistsAfter : Bool)
    (indesignFilePath outputDir : String) : Except ConvError String :=
  if !inputExists then
    .error ⟨some "FILE_NOT_FOUND", "InDesign file not found: " ++ indesignFilePath⟩
  else
    match runInDesignWithScript o with
    | .rejected c m => .error ⟨some (c.getD "INDESIGN_ERROR"), m⟩
    | .resolved =>
      if pdfExistsAfter then
        .ok (pjoin outputDir (basenameNoExt indesignFilePath ++ ".pdf"))
      else .error ⟨some "PDF_NOT_GENERATED", "PDF was not generated successfully"⟩

/-! ## The remediation-retry controller (Backend/routes/upload.js, POST /upload)

The two convert attempts and the set of successfully downloaded fonts are
oracles: the first/retry parameters stand for the two possible invocations of
the convertInDesignToPDF pipeline, and `downloaded` for the result of
downloadMissingFonts. The structure of the route allows at most one retry. -/

inductive ConvResult where
  | ok (pdfPath : String)
  | err (e : ConvError)
deriving DecidableEq

structure RouteOutcome where
  result : ConvResult
  attempts : Nat
  parsedFonts : List String
  downloadInvoked : Bool
  installInvoked : Bool
deriving DecidableEq

/-- The retry condition of the upload route: the conversion error carries code
INDESIGN_CONVERSION_FAILED and its message contains "Missing Fonts" or
"Preflight Failed". -/
def retryTrigger (e : ConvError) : Bool :=
  (e.code == some "INDESIGN_CONVERSION_FAILED") &&
    (strContains e.msg "Missing Fonts" || strContains e.msg "Preflight Failed")

/-- The conversion part of the upload route handler: on a triggering first
failure, parse missing fonts from the original message, download/install them
when any were parsed (best effort), then retry exactly once; a failed retry
surfaces a fresh error carrying the original message verbatim under code
INDESIGN_CONVERSION_FAILED. Non-triggering failures are rethrown untouched. -/
def uploadConvert (first retry : ConvResult) (downloaded : List String) : RouteOutcome :=
  match first with
  | .ok p => ⟨.ok p, 1, [], false, false⟩
  | .err e =>
    if retryTrigger e then
      let missing := parseMissingFonts e.msg
      let dlInvoked := !missing.isEmpty
      let instInvoked := !missing.isEmpty && !downloaded.isEmpty
      match retry with
      | .ok p => ⟨.ok p, 2, missing, dlInvoked, instInvoked⟩
      | .err _ => ⟨.err ⟨some "INDESIGN_CONVERSION_FAILED", e.msg⟩, 2, missing, dlInvoked, instInvoked⟩
    else ⟨.err e, 1, [], false, false⟩

/-! ## Acrobat comparison controller (comparePDFsWithAcrobat and
executeAcrobatComparison of the Acrobat service)

The filesystem is a list of existing paths; checkFileExists is membership and
fs.rename replaces the old path by the new one. -/

structure AcroOutcome where
  timedOut : Bool
  launchError : Option String
  exitCode : Option Int
  stdoutS : String
  stderrS : String
deriving DecidableEq

def acrobatTimeoutMs : Nat := 300000

def acrobatTimeoutMsg : String :=
  "Acrobat comparison timed out after " ++ Nat.repr (acrobatTimeoutMs / 1000) ++ " seconds"

/-- Only stdout is checked for failure markers (AppleScript logs go to stderr). -/
def acroHasError (stdoutS : String) : Bool :=
  strContains stdoutS "ERROR:" || strContains stdoutS "COMPARISON_FAILED"

def acroFailMsg (code : Option Int) (stdoutS stderrS : String) : String :=
  let m0 := "Acrobat comparison failed with code " ++ exitCodeRepr code ++ "."
  let m1 := if !stdoutS.isEmpty then m0 ++ " Output: " ++ stdoutS else m0
  let m2 := if !stderrS.isEmpty then m1 ++ " Error: " ++ stderrS else m1
  let m3 :=
    if strContains stderrS "syntax error" || strContains stdoutS "syntax error" then
      m2 ++ "\nTip: There may be an issue with the JavaScript syntax."
    else m2
  let m4 :=
    if strContains stderrS "not allowed" || strContains stdoutS "not allowed" then
      m3 ++ "\nTip: Check Acrobat security preferences. Go to Preferences > JavaScript and enable JavaScript."
    else m3
  if strContains stdoutS "comparePages" || strContains stderrS "comparePages" then
    m4 ++ "\nTip: The comparePages API might not be available in your Acrobat version."
  else m4

inductive AcroSettle where
  | resolved
  | rejected (code : Option String) (msg : String)
deriving DecidableEq

/-- The settle outcome of executeAcrobatComparison: timeout rejection first
(code TIMEOUT); the error handler rejects only when the timeout has not fired;
the close handler returns early after a timeout, otherwise rejects on nonzero
exit or a stdout failure marker, else resolves (after the artifact wait). -/
def acrobatSettle (o : AcroOutcome) : AcroSettle :=
  ((if o.timedOut then [AcroSettle.rejected (some "TIMEOUT") acrobatTimeoutMsg] else []) ++
   (match o.launchError with
    | some m =>
      if o.timedOut then []
      else [AcroSettle.rejected (some "APPLESCRIPT_ERROR") ("Failed to execute AppleScript: " ++ m)]
    | none =>
      if o.timedOut then []
      else if (o.exitCode != some 0) || acroHasError o.stdoutS then
        [AcroSettle.rejected (some "ACROBAT_EXECUTION_FAILED")
          (acroFailMsg o.exitCode o.stdoutS o.stderrS)]
      else [AcroSettle.resolved])).headD AcroSettle.resolved

/-- fs.rename oldP → newP. -/
def renameFs (fs : List String) (oldP newP : String) : List String :=
  newP :: fs.filter (fun p => p != oldP)

/-- The ordered candidate output names probed after a clean exit; the first is
built from the "New File" (second input) basename. -/
def possibleNames (pdf2base : String) : List String :=
  ["[Compare Report] " ++ pdf2base ++ ".pdf",
   "[Compare Report] error.pdf",
   "[Compare Report] correct.pdf"]

/-- The first candidate (in order) that exists in the output folder. -/
def findSaved (fs : List String) (folder pdf2base : String) : Option String :=
  ((possibleNames pdf2base).map (pjoin folder)).find? (fun p => fs.contains p)

/-- Artifact discovery: rename the first found candidate to the expected
output path (unless it already has that name); when none is found the
filesystem is left unchanged and the controller resolves anyway. -/
def acrobatArtifactStep (fs : List String) (folder pdf2base absOutput : String) : List String :=
  match findSaved fs folder pdf2base with
  | some saved => if saved ≠ absOutput then renameFs fs saved absOutput else fs
  | none => fs

/-- executeAcrobatComparison: settle outcome plus the filesystem after the
artifact-discovery step (which runs only on the resolve path). -/
def executeAcrobatComparison (fs : List String) (o : AcroOutcome)
    (folder pdf2base absOutput : String) : AcroSettle × List String :=
  match acrobatSettle o with
  | .resolved => (.resolved, acrobatArtifactStep fs folder pdf2base absOutput)
  | .rejected c m => (.rejected c m, fs)

def comparisonName (ts : Nat) : String := "comparison-" ++ Nat.repr ts ++ ".pdf"

/-- comparePDFsWithAcrobat: input existence checks, run the comparison, then
verify the expected comparison artifact exists; a clean run whose artifact was
not discovered is the PDF_NOT_GENERATED failure. The output folder of the
artifact probe is the dirname of the output path, i.e. the output directory. -/
def comparePDFsWithAcrobat (fs : List String) (pdf1 pdf2 outputDir : String) (ts : Nat)
    (o : AcroOutcome) : Except ConvError String × List String :=
  if !fs.contains pdf1 then
    (.error ⟨some "FILE_NOT_FOUND", "First PDF file not found: " ++ pdf1⟩, fs)
  else if !fs.contains pdf2 then
    (.error ⟨some "FILE_NOT_FOUND", "Second PDF file not found: " ++ pdf2⟩, fs)
  else
    let cmpPath := pjoin outputDir (comparisonName ts)
    let pdf2base := basenameMinus pdf2 ".pdf"
    match executeAcrobatComparison fs o outputDir pdf2base cmpPath with
    | (.rejected c m, fs') => (.error ⟨some (c.getD "ACROBAT_ERROR"), m⟩, fs')
    | (.resolved, fs') =>
      if fs'.contains cmpPath then (.ok cmpPath, fs')
      else (.error ⟨some "PDF_NOT_GENERATED", "Comparison PDF was not generated successfully"⟩, fs')

/-! ## Timeout kill sequences (C7) -/

inductive KillSig where
  | sigterm
  | sigkill
deriving DecidableEq

/-- Signals sent by the convert-flow timeout handler: nothing when the promise
already settled; otherwise SIGTERM, then (after the 5000 ms grace timer)
SIGKILL when the child's `killed` flag is still unset. -/
def indesignTimeoutSignals (isResolved killedAtGrace : Bool) : List KillSig :=
  if isResolved then []
  else KillSig.sigterm :: (if killedAtGrace then [] else [KillSig.sigkill])

/-- Signals sent by the compare-flow timeout handler: a single SIGTERM, with
no follow-up force kill anywhere in the Acrobat service. -/
def acrobatTimeoutSignals : List KillSig := [KillSig.sigterm]

/-! ## Temporary script files (C8) -/

inductive TempScript where
  | jsx
  | scpt
  | applescript
deriving DecidableEq

inductive FsOp where
  | write (f : TempScript)
  | unlink (f : TempScript)
deriving DecidableEq

inductive ExitPath where
  | success
  | failure
  | timeout
deriving DecidableEq

/-- File operations of one executeInDesignScript invocation on macOS: the .jsx
is written, runInDesignWithScript writes the .scpt wrapper, and the .jsx is
unlinked in both the try continuation and the catch handler; no code path
unlinks the .scpt wrapper. -/
def convertScriptOps : ExitPath → List FsOp
  | .success => [.write .jsx, .write .scpt, .unlink .jsx]
  | .failure => [.write .jsx, .write .scpt, .unlink .jsx]
  | .timeout => [.write .jsx, .write .scpt, .unlink .jsx]

/-- File operations of one executeAcrobatComparison invocation: the
.applescript file is written up front and unlinked only inside the clean-exit
branch of the close handler; the failure branch deliberately keeps it (its
path is logged for debugging) and the timeout rejection never reaches the
cleanup. -/
def acrobatScriptOps : ExitPath → List FsOp
  | .success => [.write .applescript, .unlink .applescript]
  | .failure => [.write .applescript]
  | .timeout => [.write .applescript]

/-- Files still on disk after a list of operations. -/
def remainingFiles (ops : List FsOp) : List TempScript :=
  ops.foldl
    (fun acc op =>
      match op with
      | .write f => acc ++ [f]
      | .unlink f => acc.filter (fun g => g != f))
    []

/-! ## Permanent font installer (installAdditionalFonts of the upload route)

The user fonts directory is a list of installed font file names; fs.access is
membership, fs.copyFile appends. The font-cache refresh (atsutil + settle
delay) has no effect on this state and is not modelled. -/

structure InstallOut where
  names : List String
  fsFonts : List String
  copies : List String
deriving DecidableEq

/-- The per-font loop: skip the copy when the destination file name already
exists, otherwise copy; in both cases report the base name (file name without
extension). -/
def installGo : List String → List String → InstallOut
  | [], fsF => ⟨[], fsF, []⟩
  | p :: ps, fsF =>
    if fsF.contains (basenameStr p) then
      let r := installGo ps fsF
      ⟨basenameMinus (basenameStr p) (String.mk (extnameOfBase (basenameStr p).data)) :: r.names,
        r.fsFonts, r.copies⟩
    else
      let r := installGo ps (basenameStr p :: fsF)
      ⟨basenameMinus (basenameStr p) (String.mk (extnameOfBase (basenameStr p).data)) :: r.names,
        r.fsFonts, basenameStr p :: r.copies⟩

def installAdditionalFonts (fontPaths : List String) (fsFonts : List String) : InstallOut :=
  installGo fontPaths fsFonts

/-! ## The generated missing-fonts diagnostic (buildErrorMessage of the
generated ExtendScript, fonts-only case with at most ten missing fonts and an
empty available-fonts list) -/

def fontLinesStr : List String → String
  | [] => ""
  | f :: fs => "  - " ++ f ++ "\n" ++ fontLinesStr fs

/-- The diagnostic text produced by the generated script when exactly the
given fonts are missing (no link errors, no available-fonts block, at most
ten fonts so the truncation branch is not taken). -/
def fontSectionMsg (fonts : List String) : String :=
  "Document has critical errors that prevent PDF export:\n\n" ++
  "• Missing Fonts (" ++ Nat.repr fonts.length ++ "):\n" ++
  "  The following fonts are NOT in your Document fonts folder:\n\n" ++
  fontLinesStr fonts ++
  "\n" ++
  "Solutions:\n" ++
  "  1. Add the missing font files to the \x27Document fonts\x27 folder in your zip file\n" ++
  "  2. Replace the fonts in your InDesign document with available alternatives\n" ++
  "\n" ++
  "\nPlease fix these issues in InDesign before converting to PDF."

/-- Last character is not whitespace (in particular the list is nonempty). -/
def lastNotWsB (cs : List Char) : Bool :=
  match cs.reverse with
  | [] => false
  | d :: _ => !isJsWs d

def noCtrlSubstr (f : List Char) : Bool :=
  !containsL fontsHeader f && !containsL fontsSubHeader f &&
  !containsL stopSolutions f && !containsL stopAvailable f

/-- A font name in the documented format: starts with an uppercase letter,
consists of regex-class characters, is longer than two characters, has no
trailing whitespace, and contains none of the parser's control phrases
("Missing Fonts", "following fonts are") or terminator words ("Solutions",
"Available"). -/
def wellFormedFontName (f : String) : Bool :=
  match f.data with
  | [] => false
  | c :: rest =>
    isUpperAZ c && rest.all isFontChar && (c :: rest).length > 2 &&
    lastNotWsB (c :: rest) && noCtrlSubstr (c :: rest)

/-! ## Helper lemmas about the string primitives -/

theorem startsWithL_nil_iff (pat : List Char) : startsWithL pat [] = true ↔ pat = [] := by
  cases pat <;> simp [startsWithL]

theorem startsWithL_append {pat xs : List Char} (ys : List Char)
    (h : startsWithL pat xs = true) : startsWithL pat (xs ++ ys) = true := by
  induction pat generalizing xs with
  | nil => rfl
  | cons a as ih =>
    cases xs with
    | nil => simp [startsWithL] at h
    | cons b bs =>
      rw [List.cons_append]
      by_cases hab : a = b
      · simp only [startsWithL, if_pos hab] at h ⊢
        exact ih h
      · simp only [startsWithL, if_neg hab] at h
        cases h

theorem containsL_append_left {pat xs : List Char} (ys : List Char)
    (h : containsL pat xs = true) : containsL pat (xs ++ ys) = true := by
  induction xs with
  | nil =>
    have hp : pat = [] := (startsWithL_nil_iff pat).mp h
    subst hp
    cases ys <;> simp [containsL, startsWithL]
  | cons c cs ih =>
    rw [List.cons_append, containsL]
    rw [containsL] at h
    cases hsw : startsWithL pat (c :: cs) with
    | true =>
      have := startsWithL_append ys hsw
      rw [List.cons_append] at this
      rw [this, Bool.true_or]
    | false =>
      rw [hsw, Bool.false_or] at h
      rw [ih h, Bool.or_true]

theorem containsL_cons_ne {p c : Char} (ps cs : List Char) (h : p ≠ c) :
    containsL (p :: ps) (c :: cs) = containsL (p :: ps) cs := by
  rw [containsL]
  have hsw : startsWithL (p :: ps) (c :: cs) = false := by
    simp [startsWithL, h]
  rw [hsw, Bool.false_or]

theorem splitNlL_ne_nil (cs : List Char) : splitNlL cs ≠ [] := by
  cases cs with
  | nil => simp [splitNlL]
  | cons c cs =>
    by_cases h : c = '\n'
    · simp [splitNlL, h]
    · simp only [splitNlL, if_neg h]
      cases hs : splitNlL cs <;> simp

theorem splitNlL_no_nl {xs : List Char} (h : '\n' ∉ xs) : splitNlL xs = [xs] := by
  induction xs with
  | nil => rfl
  | cons c cs ih =>
    have hc : c ≠ '\n' := fun e => h (e ▸ List.mem_cons_self c cs)
    have hcs : '\n' ∉ cs := fun m => h (List.mem_cons_of_mem c m)
    simp only [splitNlL, if_neg hc, ih hcs]

theorem splitNlL_append_nl {xs : List Char} (ys : List Char) (h : '\n' ∉ xs) :
    splitNlL (xs ++ '\n' :: ys) = xs :: splitNlL ys := by
  induction xs with
  | nil => simp [splitNlL]
  | cons c cs ih =>
    have hc : c ≠ '\n' := fun e => h (e ▸ List.mem_cons_self c cs)
    have hcs : '\n' ∉ cs := fun m => h (List.mem_cons_of_mem c m)
    rw [List.cons_append]
    simp only [splitNlL, if_neg hc, ih hcs]

theorem splitNlL_head_ex : ∀ (cs h : List Char) (t : List (List Char)),
    splitNlL cs = h :: t → ∃ rest, cs = h ++ rest := by
  intro cs
  induction cs with
  | nil =>
    intro h t e
    rw [splitNlL] at e
    injection e with e1 e2
    exact ⟨[], by simp [← e1]⟩
  | cons c cs ih =>
    intro h t e
    by_cases hc : c = '\n'
    · rw [splitNlL, if_pos hc] at e
      injection e with e1 e2
      exact ⟨c :: cs, by simp [← e1]⟩
    · rw [splitNlL, if_neg hc] at e
      cases hs : splitNlL cs with
      | nil => exact absurd hs (splitNlL_ne_nil cs)
      | cons l ls =>
        rw [hs] at e
        injection e with e1 e2
        obtain ⟨rest, hr⟩ := ih l ls hs
        exact ⟨rest, by rw [← e1, List.cons_append, hr]⟩

theorem mem_splitNlL_contains {pat : List Char} : ∀ (cs l : List Char),
    l ∈ splitNlL cs → containsL pat l = true → containsL pat cs = true := by
  intro cs
  induction cs with
  | nil =>
    intro l hl hc
    simp only [splitNlL, List.mem_singleton] at hl
    subst hl
    exact hc
  | cons c cs ih =>
    intro l hl hc
    by_cases hnl : c = '\n'
    · rw [splitNlL, if_pos hnl] at hl
      rcases List.mem_cons.mp hl with h1 | h2
      · subst h1
        have hp : pat = [] := (startsWithL_nil_iff pat).mp hc
        subst hp
        rw [containsL]
        simp [startsWithL]
      · rw [containsL, ih l h2 hc, Bool.or_true]
    · rw [splitNlL, if_neg hnl] at hl
      cases hs : splitNlL cs with
      | nil => exact absurd hs (splitNlL_ne_nil cs)
      | cons hd t =>
        rw [hs] at hl
        rcases List.mem_cons.mp hl with h1 | h2
        · subst h1
          obtain ⟨rest, hr⟩ := splitNlL_head_ex cs hd t hs
          have := containsL_append_left rest hc
          rw [List.cons_append] at this
          rw [hr]
          exact this
        · have hmem : l ∈ splitNlL cs := hs ▸ List.mem_cons_of_mem hd h2
          rw [containsL, ih l hmem hc, Bool.or_true]

theorem not_ws_of_upper {c : Char} (h : isUpperAZ c = true) : isJsWs c = false := by
  have f1 : c ≠ ' ' := by rintro rfl; exact absurd h (by decide)
  have f2 : c ≠ '\t' := by rintro rfl; exact absurd h (by decide)
  have f3 : c ≠ '\n' := by rintro rfl; exact absurd h (by decide)
  have f4 : c ≠ '\r' := by rintro rfl; exact absurd h (by decide)
  have f5 : c ≠ '\x0b' := by rintro rfl; exact absurd h (by decide)
  have f6 : c ≠ '\x0c' := by rintro rfl; exact absurd h (by decide)
  simp [isJsWs, f1, f2, f3, f4, f5, f6]

theorem lastNotWsB_append {f : List Char} (xs : List Char) (hne : f ≠ []) :
    lastNotWsB (xs ++ f) = lastNotWsB f := by
  cases hrev : f.reverse with
  | nil => exact absurd (by simpa using congrArg List.reverse hrev) hne
  | cons d t =>
    unfold lastNotWsB
    rw [List.reverse_append, hrev, List.cons_append]

theorem dropWhile_cons_neg {p : Char → Bool} {c : Char} {l : List Char} (h : p c = false) :
    (c :: l).dropWhile p = c :: l := by
  simp [List.dropWhile_cons, h]

theorem dropWhile_cons_pos {p : Char → Bool} {c : Char} {l : List Char} (h : p c = true) :
    (c :: l).dropWhile p = l.dropWhile p := by
  simp [List.dropWhile_cons, h]

theorem trimL_cons_eq_self {c : Char} {rest : List Char} (hc : isJsWs c = false)
    (hl : lastNotWsB (c :: rest) = true) : trimL (c :: rest) = c :: rest := by
  unfold trimL trimLeftL
  rw [dropWhile_cons_neg hc]
  cases hrev : (c :: rest).reverse with
  | nil => exact absurd (by simpa using congrArg List.reverse hrev) (List.cons_ne_nil c rest)
  | cons d t =>
    have hd : isJsWs d = false := by
      unfold lastNotWsB at hl
      rw [hrev] at hl
      simpa using hl
    rw [dropWhile_cons_neg hd, ← hrev, List.reverse_reverse]

theorem trimL_ws_cons {l : List Char} {c : Char} (hc : isJsWs c = true) :
    trimL (c :: l) = trimL l := by
  unfold trimL trimLeftL
  rw [dropWhile_cons_pos hc]

theorem takeWhile_all {p : Char → Bool} : ∀ {l : List Char}, l.all p = true → l.takeWhile p = l := by
  intro l
  induction l with
  | nil => intro; rfl
  | cons a l ih =>
    intro h
    rw [List.all_cons, Bool.and_eq_true] at h
    rw [List.takeWhile_cons, h.1]
    simp [ih h.2]

theorem digitChar_lt10_ne_nl {m : Nat} (h : m < 10) : Nat.digitChar m ≠ '\n' := by
  have hall : ∀ k : Fin 10, Nat.digitChar k.val ≠ '\n' := by decide
  exact hall ⟨m, h⟩

theorem toDigitsCore_no_nl : ∀ (fuel n : Nat) (ds : List Char),
    (∀ c ∈ ds, c ≠ '\n') → ∀ c ∈ Nat.toDigitsCore 10 fuel n ds, c ≠ '\n' := by
  intro fuel
  induction fuel with
  | zero =>
    intro n ds h
    simpa [Nat.toDigitsCore] using h
  | succ fuel ih =>
    intro n ds h c hc
    rw [Nat.toDigitsCore] at hc
    have hds : ∀ x ∈ Nat.digitChar (n % 10) :: ds, x ≠ '\n' := by
      intro x hx
      rcases List.mem_cons.mp hx with rfl | hm
      · exact digitChar_lt10_ne_nl (Nat.mod_lt n (by norm_num))
      · exact h x hm
    split at hc
    · exact hds c hc
    · exact ih (n / 10) (Nat.digitChar (n % 10) :: ds) hds c hc

theorem repr_no_nl (n : Nat) : '\n' ∉ (Nat.repr n).data := by
  intro h
  have hall : ∀ c ∈ Nat.toDigits 10 n, c ≠ '\n' :=
    toDigitsCore_no_nl (n + 1) n [] (by intro c hc; cases hc)
  exact hall '\n' (by simpa [Nat.repr, Nat.toDigits, List.asString] using h) rfl

/-! ## Lemmas about the structured font parser (C5, C10) -/

def headIsNot (x : Char) : List Char → Bool
  | [] => false
  | p :: _ => p ≠ x

theorem containsL_cons_of_headIsNot {pat : List Char} {c : Char} (cs : List Char)
    (h : headIsNot c pat = true) :
    containsL pat (c :: cs) = containsL pat cs := by
  cases pat with
  | nil => cases h
  | cons p ps =>
    have hp : p ≠ c := by simpa [headIsNot] using h
    exact containsL_cons_ne ps cs hp

theorem wf_unpack {f : String} (h : wellFormedFontName f = true) :
    ∃ c rest, f.data = c :: rest ∧ isUpperAZ c = true ∧ rest.all isFontChar = true ∧
      (c :: rest).length > 2 ∧ lastNotWsB (c :: rest) = true ∧
      containsL fontsHeader (c :: rest) = false ∧
      containsL fontsSubHeader (c :: rest) = false ∧
      containsL stopSolutions (c :: rest) = false ∧
      containsL stopAvailable (c :: rest) = false := by
  unfold wellFormedFontName at h
  cases hd : f.data with
  | nil => rw [hd] at h; cases h
  | cons c rest =>
    rw [hd] at h
    simp only [noCtrlSubstr, Bool.and_eq_true, Bool.not_eq_true', decide_eq_true_eq] at h
    exact ⟨c, rest, rfl, by tauto, by tauto, by tauto, by tauto, by tauto, by tauto, by tauto,
      by tauto⟩

theorem fontLine_header_free {f : String} (hwf : wellFormedFontName f = true) :
    containsL fontsHeader (' ' :: ' ' :: '-' :: ' ' :: f.data) = false := by
  obtain ⟨c, rest, hd, _, _, _, _, hh, _, _, _⟩ := wf_unpack hwf
  rw [containsL_cons_of_headIsNot _ (by decide), containsL_cons_of_headIsNot _ (by decide),
    containsL_cons_of_headIsNot _ (by decide), containsL_cons_of_headIsNot _ (by decide), hd, hh]

theorem fontLine_subheader_free {f : String} (hwf : wellFormedFontName f = true) :
    containsL fontsSubHeader (' ' :: ' ' :: '-' :: ' ' :: f.data) = false := by
  obtain ⟨c, rest, hd, _, _, _, _, _, hh, _, _⟩ := wf_unpack hwf
  rw [containsL_cons_of_headIsNot _ (by decide), containsL_cons_of_headIsNot _ (by decide),
    containsL_cons_of_headIsNot _ (by decide), containsL_cons_of_headIsNot _ (by decide), hd, hh]

theorem fontLine_trim {f : String} (hwf : wellFormedFontName f = true) :
    trimL (' ' :: ' ' :: '-' :: ' ' :: f.data) = '-' :: ' ' :: f.data := by
  obtain ⟨c, rest, hd, hup, _, _, hlast, _, _, _, _⟩ := wf_unpack hwf
  rw [trimL_ws_cons (by decide), trimL_ws_cons (by decide)]
  have hne : f.data ≠ [] := by rw [hd]; exact List.cons_ne_nil c rest
  have hl2 : lastNotWsB ('-' :: ' ' :: f.data) = true := by
    have := lastNotWsB_append (f := f.data) ['-', ' '] hne
    rw [show ['-', ' '] ++ f.data = '-' :: ' ' :: f.data from rfl] at this
    rw [this, hd, hlast]
  exact trimL_cons_eq_self (by decide) hl2

theorem fontLine_match {f : String} (hwf : wellFormedFontName f = true) :
    firstFontMatch ('-' :: ' ' :: f.data) = some f.data := by
  obtain ⟨c, rest, hd, hup, hall, hlen, _, _, _, _, _⟩ := wf_unpack hwf
  rw [hd]
  cases rest with
  | nil => simp at hlen
  | cons r rs =>
    have hr : isFontChar r = true := by
      rw [List.all_cons, Bool.and_eq_true] at hall
      exact hall.1
    show firstFontMatch (c :: r :: rs) = some (c :: r :: rs)
    rw [firstFontMatch]
    have hcond : (isUpperAZ c && headFontChar (r :: rs)) = true := by
      rw [hup, headFontChar, hr]; rfl
    rw [if_pos hcond, takeWhile_all hall]

theorem fontLine_accepted {f : String} (hwf : wellFormedFontName f = true)
    (rest : List (List Char)) (cnt : Nat) (acc : List (List Char)) :
    parseLoop ((' ' :: ' ' :: '-' :: ' ' :: f.data) :: rest) true true cnt acc
      = parseLoop rest true true (cnt + 1) (f.data :: acc) := by
  obtain ⟨c, r0, hd, hup, hall, hlen, hlast, hh1, hh2, hs1, hs2⟩ := wf_unpack hwf
  have htrim : trimL (' ' :: ' ' :: '-' :: ' ' :: f.data) = '-' :: ' ' :: f.data :=
    fontLine_trim hwf
  have hname : trimL f.data = f.data := by
    rw [hd]; exact trimL_cons_eq_self (not_ws_of_upper hup) hlast
  have hsol : containsL stopSolutions ('-' :: ' ' :: f.data) = false := by
    rw [containsL_cons_of_headIsNot _ (by decide), containsL_cons_of_headIsNot _ (by decide), hd]
    exact hs1
  have hava : containsL stopAvailable ('-' :: ' ' :: f.data) = false := by
    rw [containsL_cons_of_headIsNot _ (by decide), containsL_cons_of_headIsNot _ (by decide), hd]
    exact hs2
  have hsolf : containsL stopSolutions f.data = false := by rw [hd]; exact hs1
  have havaf : containsL stopAvailable f.data = false := by rw [hd]; exact hs2
  have hlenB : decide (f.data.length > 2) = true := by
    rw [hd]; exact decide_eq_true hlen
  have hemp : f.data.isEmpty = false := by rw [hd]; rfl
  rw [parseLoop]
  rw [fontLine_header_free hwf]
  rw [fontLine_subheader_free hwf]
  simp only [Bool.false_eq_true, if_false, Bool.and_self, if_pos trivial]
  rw [htrim, fontLine_match hwf]
  simp only [List.isEmpty_cons, Bool.false_and, Bool.false_eq_true, if_false, hsol, hava,
    Bool.or_false, hname, hemp, hlenB, hsolf, havaf, Bool.not_false, Bool.and_true,
    Bool.true_and, if_pos trivial]

theorem parseLoop_break (tail : List (List Char)) (cnt : Nat) (acc : List (List Char))
    (hc : 2 ≤ cnt) :
    parseLoop ([] :: tail) true true cnt acc = acc.reverse := by
  rw [parseLoop]
  have h1 : containsL fontsHeader ([] : List Char) = false := by decide
  have h2 : containsL fontsSubHeader ([] : List Char) = false := by decide
  rw [h1, h2]
  simp only [Bool.false_eq_true, if_false, Bool.and_self, if_pos trivial]
  have ht : trimL ([] : List Char) = [] := rfl
  rw [ht]
  have hlt : decide (cnt + 1 < 3) = false := decide_eq_false (by omega)
  rw [hlt]
  simp

theorem parseLoop_fonts : ∀ (fonts : List String) (tail : List (List Char)) (cnt : Nat)
    (acc : List (List Char)),
    (∀ f ∈ fonts, wellFormedFontName f = true) →
    1 ≤ cnt → (fonts = [] → 2 ≤ cnt) →
    parseLoop ((fonts.map (fun f => ' ' :: ' ' :: '-' :: ' ' :: f.data)) ++ [] :: tail)
        true true cnt acc
      = acc.reverse ++ fonts.map (fun f => f.data) := by
  intro fonts
  induction fonts with
  | nil =>
    intro tail cnt acc hwf h1 h2
    rw [List.map_nil, List.nil_append, parseLoop_break tail cnt acc (h2 rfl), List.map_nil,
      List.append_nil]
  | cons f fs ih =>
    intro tail cnt acc hwf h1 h2
    rw [List.map_cons, List.cons_append]
    rw [fontLine_accepted (hwf f (List.mem_cons_self f fs)) _ cnt acc]
    rw [ih tail (cnt + 1) (f.data :: acc) (fun g hg => hwf g (List.mem_cons_of_mem f hg))
      (by omega) (fun _ => by omega)]
    simp

theorem wf_no_nl {f : String} (hwf : wellFormedFontName f = true) : '\n' ∉ f.data := by
  obtain ⟨c, rest, hd, hup, hall, _, _, _, _, _, _⟩ := wf_unpack hwf
  rw [hd]
  intro hmem
  rcases List.mem_cons.mp hmem with h1 | h2
  · rw [← h1] at hup
    exact absurd hup (by decide)
  · have := (List.all_eq_true.mp hall) '\n' h2
    exact absurd this (by decide)

theorem splitNlL_nl (ys : List Char) : splitNlL ('\n' :: ys) = [] :: splitNlL ys := by
  rw [splitNlL, if_pos rfl]

theorem splitNlL_append3_nl {A B C : List Char} (R : List Char)
    (hA : '\n' ∉ A) (hB : '\n' ∉ B) (hC : '\n' ∉ C) :
    splitNlL (A ++ (B ++ (C ++ '\n' :: R))) = (A ++ B ++ C) :: splitNlL R := by
  have he : A ++ (B ++ (C ++ '\n' :: R)) = (A ++ B ++ C) ++ '\n' :: R := by
    simp [List.append_assoc]
  rw [he]
  refine splitNlL_append_nl R ?_
  intro hmem
  rcases List.mem_append.mp hmem with h1 | h2
  · rcases List.mem_append.mp h1 with h3 | h4
    · exact hA h3
    · exact hB h4
  · exact hC h2

theorem splitNlL_fontLines : ∀ (fonts : List String) (ys : List Char),
    (∀ f ∈ fonts, wellFormedFontName f = true) →
    splitNlL ((fontLinesStr fonts).data ++ ys) =
      fonts.map (fun f => ' ' :: ' ' :: '-' :: ' ' :: f.data) ++ splitNlL ys := by
  intro fonts
  induction fonts with
  | nil => intro ys hwf; rfl
  | cons f fs ih =>
    intro ys hwf
    have hf := hwf f (List.mem_cons_self f fs)
    have hno : '\n' ∉ (' ' :: ' ' :: '-' :: ' ' :: f.data) := by
      intro hmem
      have := wf_no_nl hf
      rcases List.mem_cons.mp hmem with h1 | h2
      · cases h1
      · rcases List.mem_cons.mp h2 with h3 | h4
        · cases h3
        · rcases List.mem_cons.mp h4 with h5 | h6
          · cases h5
          · rcases List.mem_cons.mp h6 with h7 | h8
            · cases h7
            · exact this h8
    have he : (fontLinesStr (f :: fs)).data ++ ys =
        (' ' :: ' ' :: '-' :: ' ' :: f.data) ++ '\n' :: ((fontLinesStr fs).data ++ ys) := by
      show (("  - " ++ f ++ "\n" ++ fontLinesStr fs).data) ++ ys = _
      simp [List.append_assoc]
    rw [he, splitNlL_append_nl _ hno, ih ys (fun g hg => hwf g (List.mem_cons_of_mem f hg)),
      List.map_cons, List.cons_append]

theorem parseLoop_skip_pre {line : List Char} (rest : List (List Char)) (b : Bool) (cnt : Nat)
    (acc : List (List Char)) (h : containsL fontsHeader line = false) :
    parseLoop (line :: rest) false b cnt acc = parseLoop rest false b cnt acc := by
  rw [parseLoop, h]
  simp only [Bool.false_eq_true, if_false, Bool.false_and]

theorem parseLoop_enter {line : List Char} (rest : List (List Char)) (b : Bool) (cnt : Nat)
    (acc : List (List Char)) (h : containsL fontsHeader line = true) :
    parseLoop (line :: rest) false b cnt acc = parseLoop rest true b cnt acc := by
  rw [parseLoop, h, if_pos rfl]

theorem parseLoop_subheader {line : List Char} (rest : List (List Char)) (cnt : Nat)
    (acc : List (List Char)) (h1 : containsL fontsHeader line = false)
    (h2 : containsL fontsSubHeader line = true) :
    parseLoop (line :: rest) true false cnt acc = parseLoop rest true true cnt acc := by
  rw [parseLoop, h1, h2]
  simp only [Bool.false_eq_true, if_false, Bool.true_and]
  exact if_pos trivial

theorem parseLoop_skip_blank (rest : List (List Char)) (cnt : Nat) (acc : List (List Char))
    (h : cnt + 1 < 3) :
    parseLoop ([] :: rest) true true cnt acc = parseLoop rest true true (cnt + 1) acc := by
  rw [parseLoop]
  have h1 : containsL fontsHeader ([] : List Char) = false := by decide
  have h2 : containsL fontsSubHeader ([] : List Char) = false := by decide
  rw [h1, h2]
  simp only [Bool.false_eq_true, if_false, Bool.and_self, if_pos trivial]
  have ht : trimL ([] : List Char) = [] := rfl
  rw [ht]
  have hlt : decide (cnt + 1 < 3) = true := decide_eq_true h
  rw [hlt]
  simp

theorem mk_data (s : String) : String.mk s.data = s := rfl

/-- The heart of C5: on the generated missing-fonts diagnostic for a nonempty
list of well-formed font names, the structured parser recovers exactly the
listed names, in order. -/
theorem parseMissingFonts_fontSection (fonts : List String) (hne : fonts ≠ [])
    (hwf : ∀ f ∈ fonts, wellFormedFontName f = true) :
    parseMissingFonts (fontSectionMsg fonts) = fonts := by
  have e : (fontSectionMsg fonts).data =
      "Document has critical errors that prevent PDF export:".data ++ '\n' :: '\n' ::
      ("• Missing Fonts (".data ++
      ((Nat.repr fonts.length).data ++
      ("):".data ++ '\n' ::
      ("  The following fonts are NOT in your Document fonts folder:".data ++ '\n' :: '\n' ::
      ((fontLinesStr fonts).data ++ '\n' ::
      ("Solutions:".data ++ '\n' ::
      ("  1. Add the missing font files to the \x27Document fonts\x27 folder in your zip file".data ++ '\n' ::
      ("  2. Replace the fonts in your InDesign document with available alternatives".data ++ '\n' :: '\n' :: '\n' ::
      "Please fix these issues in InDesign before converting to PDF.".data)))))))) := by
    simp [fontSectionMsg, String.data_append, List.append_assoc]
  have hsplit : splitNlL (fontSectionMsg fonts).data =
      "Document has critical errors that prevent PDF export:".data :: [] ::
      ("• Missing Fonts (".data ++ (Nat.repr fonts.length).data ++ "):".data) ::
      "  The following fonts are NOT in your Document fonts folder:".data :: [] ::
      (fonts.map (fun f => ' ' :: ' ' :: '-' :: ' ' :: f.data) ++ [] ::
        "Solutions:".data ::
        "  1. Add the missing font files to the \x27Document fonts\x27 folder in your zip file".data ::
        "  2. Replace the fonts in your InDesign document with available alternatives".data ::
        [] :: [] ::
        ["Please fix these issues in InDesign before converting to PDF.".data]) := by
    rw [e]
    rw [splitNlL_append_nl _ (by decide), splitNlL_nl]
    rw [splitNlL_append3_nl _ (by decide) (repr_no_nl fonts.length) (by decide)]
    rw [splitNlL_append_nl _ (by decide), splitNlL_nl]
    rw [splitNlL_fontLines fonts _ hwf]
    rw [splitNlL_nl]
    rw [splitNlL_append_nl _ (by decide)]
    rw [splitNlL_append_nl _ (by decide)]
    rw [splitNlL_append_nl _ (by decide), splitNlL_nl, splitNlL_nl]
    rw [splitNlL_no_nl (by decide)]
  have hwalk : parseLoop (splitNlL (fontSectionMsg fonts).data) false false 0 [] =
      fonts.map (fun f => f.data) := by
    rw [hsplit]
    rw [parseLoop_skip_pre _ _ _ _ (by decide)]
    rw [parseLoop_skip_pre _ _ _ _ (by decide)]
    rw [parseLoop_enter _ _ _ _ (containsL_append_left _ (containsL_append_left _ (by decide)))]
    rw [parseLoop_subheader _ _ _ (by decide) (by decide)]
    rw [parseLoop_skip_blank _ _ _ (by omega)]
    rw [parseLoop_fonts fonts _ 1 [] hwf (by omega) (fun hn => absurd hn hne)]
    rfl
  rw [parseMissingFonts, hwalk]
  have hmap : (fonts.map (fun f => f.data)).map (fun cs => String.mk cs) = fonts := by
    rw [List.map_map]
    have hid : ((fun cs => String.mk cs) ∘ fun f : String => f.data) = id := funext fun f => rfl
    rw [hid, List.map_id]
  rw [hmap]
  cases fonts with
  | nil => exact absurd rfl hne
  | cons f fs => simp

/-- C10 gate lemma: without the "Missing Fonts" substring the structured loop
never enters the font section. -/
theorem parseLoop_noHeader : ∀ (lines : List (List Char)) (b : Bool) (cnt : Nat)
    (acc : List (List Char)),
    (∀ l ∈ lines, containsL fontsHeader l = false) →
    parseLoop lines false b cnt acc = acc.reverse := by
  intro lines
  induction lines with
  | nil => intro b cnt acc _; rfl
  | cons line rest ih =>
    intro b cnt acc h
    rw [parseLoop_skip_pre rest b cnt acc (h line (List.mem_cons_self _ _))]
    exact ih b cnt acc (fun l hl => h l (List.mem_cons_of_mem _ hl))

theorem parseMissingFonts_no_marker {msg : String}
    (h : strContains msg "Missing Fonts" = false) : parseMissingFonts msg = [] := by
  have hlines : ∀ l ∈ splitNlL msg.data, containsL fontsHeader l = false := by
    intro l hl
    cases hc : containsL fontsHeader l with
    | false => rfl
    | true =>
      have hm := mem_splitNlL_contains msg.data l hl hc
      have hgate : containsL fontsHeader msg.data = false := h
      rw [hm] at hgate
      cases hgate
  rw [parseMissingFonts]
  rw [parseLoop_noHeader _ false 0 [] hlines]
  simp [h]

/-! ## Helper lemmas for the supervisor, the comparison controller and the
installer -/

theorem resolved_characterisation {o : ProcOutcome}
    (h : runInDesignWithScript o = RunSettle.resolved) :
    o.timedOut = false ∧ o.launchError = none ∧ o.exitCode = some 0 ∧
    strContains (filterStderr o.stderrS) "ERROR:" = false ∧
    strContains o.stdoutS "ERROR:" = false := by
  unfold runInDesignWithScript firstSettle at h
  cases ht : o.timedOut with
  | true => rw [ht] at h; simp at h
  | false =>
    rw [ht] at h
    cases hle : o.launchError with
    | some m => rw [hle] at h; simp at h
    | none =>
      rw [hle] at h
      simp only [Bool.false_eq_true, if_false, List.nil_append, List.headD_cons] at h
      unfold closeHandler at h
      split at h
      · exact absurd h (by simp)
      · next hc =>
        have hc' : ((o.exitCode != some 0) || strContains (filterStderr o.stderrS) "ERROR:" ||
            strContains o.stdoutS "ERROR:") = false := by
          cases hb : ((o.exitCode != some 0) || strContains (filterStderr o.stderrS) "ERROR:" ||
              strContains o.stdoutS "ERROR:") with
          | false => rfl
          | true => exact absurd hb hc
        have h1 : (o.exitCode != some 0) = false := by
          cases hb : (o.exitCode != some 0) with
          | false => rfl
          | true => rw [hb] at hc'; simp at hc'
        have h2 : strContains (filterStderr o.stderrS) "ERROR:" = false := by
          cases hb : strContains (filterStderr o.stderrS) "ERROR:" with
          | false => rfl
          | true => rw [hb] at hc'; simp at hc'
        have h3 : strContains o.stdoutS "ERROR:" = false := by
          cases hb : strContains o.stdoutS "ERROR:" with
          | false => rfl
          | true => rw [hb] at hc'; simp at hc'
        have hexit : o.exitCode = some 0 := bne_eq_false_iff_eq.mp h1
        exact ⟨rfl, rfl, hexit, h2, h3⟩

theorem data_pjoin (dir name : String) : (pjoin dir name).data = dir.data ++ '/' :: name.data := by
  simp [pjoin, String.data_append]

theorem pjoin_inj_right {dir a b : String} (h : pjoin dir a = pjoin dir b) : a = b := by
  have hd := congrArg String.data h
  rw [data_pjoin, data_pjoin] at hd
  have h1 := List.append_cancel_left hd
  injection h1 with _ h2
  calc a = String.mk a.data := (mk_data a).symm
    _ = String.mk b.data := by rw [h2]
    _ = b := mk_data b

theorem candidate_ne_comparison {outputDir pdf2base : String} {name : String} (ts : Nat)
    (hmem : name ∈ possibleNames pdf2base) :
    pjoin outputDir name ≠ pjoin outputDir (comparisonName ts) := by
  intro h
  have hn : name = comparisonName ts := pjoin_inj_right h
  have hd := congrArg String.data hn
  simp only [possibleNames, List.mem_cons, List.not_mem_nil, or_false] at hmem
  rcases hmem with rfl | rfl | rfl <;>
    · rw [comparisonName] at hd
      simp [String.data_append] at hd

theorem findSaved_spec {fs : List String} {folder pdf2base saved : String}
    (h : findSaved fs folder pdf2base = some saved) :
    fs.contains saved = true ∧ ∃ name ∈ possibleNames pdf2base, saved = pjoin folder name := by
  unfold findSaved at h
  have hp := List.find?_some h
  have hm := List.mem_of_find?_eq_some h
  rcases List.mem_map.mp hm with ⟨name, hname, rfl⟩
  exact ⟨hp, name, hname, rfl⟩

theorem installGo_names : ∀ (ps fs : List String),
    (installGo ps fs).names = ps.map (fun p =>
      basenameMinus (basenameStr p) (String.mk (extnameOfBase (basenameStr p).data))) := by
  intro ps
  induction ps with
  | nil => intro fs; rfl
  | cons p ps ih =>
    intro fs
    unfold installGo
    split <;> simp [ih]

theorem installGo_fs_mono : ∀ (ps fs : List String) (n : String),
    n ∈ fs → n ∈ (installGo ps fs).fsFonts := by
  intro ps
  induction ps with
  | nil => intro fs n h; exact h
  | cons p ps ih =>
    intro fs n h
    unfold installGo
    split
    · exact ih fs n h
    · exact ih (basenameStr p :: fs) n (List.mem_cons_of_mem _ h)

theorem installGo_fs_mem : ∀ (ps fs : List String) (p : String),
    p ∈ ps → basenameStr p ∈ (installGo ps fs).fsFonts := by
  intro ps
  induction ps with
  | nil => intro fs p h; cases h
  | cons q ps ih =>
    intro fs p h
    rcases List.mem_cons.mp h with rfl | hm
    · unfold installGo
      split
      · next hc => exact installGo_fs_mono ps fs _ (List.elem_iff.mp hc)
      · exact installGo_fs_mono ps _ _ (List.mem_cons_self _ _)
    · unfold installGo
      split
      · exact ih fs p hm
      · exact ih _ p hm

theorem installGo_all_present : ∀ (ps fs : List String),
    (∀ p ∈ ps, fs.contains (basenameStr p) = true) →
    (installGo ps fs).copies = [] ∧ (installGo ps fs).fsFonts = fs := by
  intro ps
  induction ps with
  | nil => intro fs _; exact ⟨rfl, rfl⟩
  | cons p ps ih =>
    intro fs h
    have hp := h p (List.mem_cons_self p ps)
    have hrest := ih fs (fun q hq => h q (List.mem_cons_of_mem p hq))
    unfold installGo
    rw [if_pos hp]
    exact hrest

/-! ## Claim theorems -/

/-- C1: when the first conversion attempt fails with code
INDESIGN_CONVERSION_FAILED and a missing-resource (Missing Fonts) diagnostic,
the route retries the convert pipeline exactly once (two attempts total); if
that single retry fails for any reason, the surfaced error carries the
original first-attempt message verbatim under code INDESIGN_CONVERSION_FAILED
— not the retry's diagnostic — and no execution of the route ever makes more
than two attempts. -/
theorem c1_single_retry_preserves_original (msg : String) (retryErr : ConvError)
    (downloaded : List String) (hmsg : strContains msg "Missing Fonts" = true) :
    (uploadConvert (ConvResult.err ⟨some "INDESIGN_CONVERSION_FAILED", msg⟩)
        (ConvResult.err retryErr) downloaded).result
      = ConvResult.err ⟨some "INDESIGN_CONVERSION_FAILED", msg⟩ ∧
    (uploadConvert (ConvResult.err ⟨some "INDESIGN_CONVERSION_FAILED", msg⟩)
        (ConvResult.err retryErr) downloaded).attempts = 2 ∧
    ∀ (first retry : ConvResult) (dl : List String),
      (uploadConvert first retry dl).attempts ≤ 2 := by
  have htrig : retryTrigger ⟨some "INDESIGN_CONVERSION_FAILED", msg⟩ = true := by
    simp [retryTrigger, hmsg]
  refine ⟨?_, ?_, ?_⟩
  · simp [uploadConvert, htrig]
  · simp [uploadConvert, htrig]
  · intro f r d
    cases f with
    | ok p => simp [uploadConvert]
    | err e =>
      cases hb : retryTrigger e with
      | true => cases r <;> simp [uploadConvert, hb]
      | false => simp [uploadConvert, hb]

theorem c1_witness :
    strContains "Error: • Missing Fonts (1):" "Missing Fonts" = true ∧
    (uploadConvert
        (ConvResult.err ⟨some "INDESIGN_CONVERSION_FAILED", "Error: • Missing Fonts (1):"⟩)
        (ConvResult.err ⟨none, "second-order failure"⟩) []).result
      = ConvResult.err ⟨some "INDESIGN_CONVERSION_FAILED", "Error: • Missing Fonts (1):"⟩ :=
  ⟨by decide,
   (c1_single_retry_preserves_original "Error: • Missing Fonts (1):"
      ⟨none, "second-order failure"⟩ [] (by decide)).1⟩

/-- C2 counterexample: a preflight-failure diagnostic — a validation failure,
not a missing-font classification — still triggers the remediation-retry path:
the route performs a second convert attempt (and here even surfaces its
success), contradicting the claim that every non-missing-resource failure is
terminal and never retried. -/
theorem c2_counterexample :
    (uploadConvert (ConvResult.err ⟨some "INDESIGN_CONVERSION_FAILED",
          "Preflight Failed:\n\nPreflight found issues in the document:\n\n• Errors: 2"⟩)
        (ConvResult.ok "/tmp/out.pdf") []).attempts = 2 ∧
    (uploadConvert (ConvResult.err ⟨some "INDESIGN_CONVERSION_FAILED",
          "Preflight Failed:\n\nPreflight found issues in the document:\n\n• Errors: 2"⟩)
        (ConvResult.ok "/tmp/out.pdf") []).result = ConvResult.ok "/tmp/out.pdf" := by
  exact ⟨by decide, by decide⟩

/-- C2 amended: the remediation-retry path is triggered exactly when the
failure carries code INDESIGN_CONVERSION_FAILED and its message contains
"Missing Fonts" or "Preflight Failed"; every failure outside this condition is
terminal: it is surfaced unchanged after a single attempt with no remediation
and no retry. -/
theorem c2_trigger_characterisation (e : ConvError) (retry : ConvResult) (dl : List String) :
    (retryTrigger e = false →
      uploadConvert (ConvResult.err e) retry dl
        = ⟨ConvResult.err e, 1, [], false, false⟩) ∧
    (retryTrigger e = true → (uploadConvert (ConvResult.err e) retry dl).attempts = 2) ∧
    retryTrigger e = ((e.code == some "INDESIGN_CONVERSION_FAILED") &&
      (strContains e.msg "Missing Fonts" || strContains e.msg "Preflight Failed")) := by
  refine ⟨?_, ?_, rfl⟩
  · intro h
    simp [uploadConvert, h]
  · intro h
    cases retry <;> simp [uploadConvert, h]

theorem c2_witness :
    uploadConvert (ConvResult.err ⟨some "FILE_NOT_FOUND", "InDesign file not found: /a/x.indd"⟩)
        (ConvResult.ok "/tmp/p.pdf") []
      = ⟨ConvResult.err ⟨some "FILE_NOT_FOUND", "InDesign file not found: /a/x.indd"⟩,
          1, [], false, false⟩ :=
  (c2_trigger_characterisation ⟨some "FILE_NOT_FOUND", "InDesign file not found: /a/x.indd"⟩
    (ConvResult.ok "/tmp/p.pdf") []).1 (by decide)

/-- C3: whenever the wall-clock timeout fires (timedOut = true), the settled
result of the supervised invocation is the timeout rejection — for the
Convert flow a rejection whose message reports the timeout, for the Compare
flow a rejection with code TIMEOUT — regardless of the exit code or any
captured stdout/stderr: a later successful-looking exit never turns the
outcome into a resolution. -/
theorem c3_timeout_overrides_all (o : ProcOutcome) (o2 : AcroOutcome)
    (h1 : o.timedOut = true) (h2 : o2.timedOut = true) :
    runInDesignWithScript o = RunSettle.rejected none indesignTimeoutMsg ∧
    strContains indesignTimeoutMsg "timed out" = true ∧
    acrobatSettle o2 = AcroSettle.rejected (some "TIMEOUT") acrobatTimeoutMsg ∧
    strContains acrobatTimeoutMsg "timed out" = true := by
  refine ⟨?_, by decide, ?_, by decide⟩
  · unfold runInDesignWithScript firstSettle
    rw [h1]
    simp
  · unfold acrobatSettle
    rw [h2]
    cases ho : o2.launchError <;> simp

theorem c3_witness :
    runInDesignWithScript ⟨true, none, some 0, "SUCCESS", ""⟩
      = RunSettle.rejected none indesignTimeoutMsg ∧
    acrobatSettle ⟨true, none, some 0, "COMPLETED", ""⟩
      = AcroSettle.rejected (some "TIMEOUT") acrobatTimeoutMsg :=
  ⟨(c3_timeout_overrides_all ⟨true, none, some 0, "SUCCESS", ""⟩
      ⟨true, none, some 0, "COMPLETED", ""⟩ rfl rfl).1,
   (c3_timeout_overrides_all ⟨true, none, some 0, "SUCCESS", ""⟩
      ⟨true, none, some 0, "COMPLETED", ""⟩ rfl rfl).2.2.1⟩

/-- C7 counterexample: the Compare flow's timeout handler sends only SIGTERM;
no SIGKILL is ever sent by the Acrobat service, so the claimed
SIGTERM-then-SIGKILL sequence is false for the Compare flow. -/
theorem c7_counterexample :
    acrobatTimeoutSignals = [KillSig.sigterm] ∧
    KillSig.sigkill ∉ acrobatTimeoutSignals := by
  exact ⟨rfl, by decide⟩

/-- C7 amended: both flows use a 300000 ms timeout. The Convert flow's timeout
handler (when the promise is still unsettled) sends SIGTERM and then, after a
5000 ms grace timer, SIGKILL when the child's killed flag is still unset; the
Compare flow's timeout handler sends only SIGTERM with no force-kill
follow-up. -/
theorem c7_kill_sequences :
    indesignTimeoutMs = 300000 ∧ indesignGraceMs = 5000 ∧ acrobatTimeoutMs = 300000 ∧
    indesignTimeoutSignals false false = [KillSig.sigterm, KillSig.sigkill] ∧
    indesignTimeoutSignals false true = [KillSig.sigterm] ∧
    indesignTimeoutSignals true false = [] ∧
    acrobatTimeoutSignals = [KillSig.sigterm] := by
  refine ⟨by decide, by decide, by decide, rfl, rfl, rfl, rfl⟩

/-- C8 counterexample: even on the success path of a convert job, the macOS
.scpt wrapper script is still on disk afterwards (it is never deleted on any
path), and on the failure path of a compare job the .applescript file remains
as well — contradicting deletion on every exit path. -/
theorem c8_counterexample :
    TempScript.scpt ∈ remainingFiles (convertScriptOps ExitPath.success) ∧
    TempScript.applescript ∈ remainingFiles (acrobatScriptOps ExitPath.failure) := by
  exact ⟨by decide, by decide⟩

/-- C8 amended: the generated .jsx ExtendScript is deleted on every exit path
of a convert job; the macOS .scpt wrapper is deleted on none of them; the
Acrobat .applescript is deleted exactly on the success path (it is kept on
failure for debugging and leaked on timeout). -/
theorem c8_cleanup_coverage :
    ∀ e : ExitPath,
      TempScript.jsx ∉ remainingFiles (convertScriptOps e) ∧
      TempScript.scpt ∈ remainingFiles (convertScriptOps e) ∧
      (TempScript.applescript ∈ remainingFiles (acrobatScriptOps e) ↔ e ≠ ExitPath.success) := by
  intro e
  cases e <;> exact ⟨by decide, by decide, by decide⟩

/-- C4: convertInDesignToPDF resolves with Success only when the supervised
process neither timed out nor failed to launch, exited 0, produced no "ERROR:"
marker in the filtered stderr or the raw stdout, and the expected artifact
outputDir/<basename>.pdf exists on disk afterwards — and the returned path is
exactly that artifact path. When the process completes cleanly but the
artifact is absent, the result is the PDF_NOT_GENERATED failure, never
Success: exit code 0 alone is never sufficient. -/
theorem c4_success_requires_artifact (inputExists : Bool) (o : ProcOutcome)
    (pdfExistsAfter : Bool) (inPath outDir : String) :
    (∀ p, convertInDesignToPDF inputExists o pdfExistsAfter inPath outDir = Except.ok p →
      p = pjoin outDir (basenameNoExt inPath ++ ".pdf") ∧
      o.timedOut = false ∧ o.launchError = none ∧ o.exitCode = some 0 ∧
      strContains (filterStderr o.stderrS) "ERROR:" = false ∧
      strContains o.stdoutS "ERROR:" = false ∧ pdfExistsAfter = true) ∧
    (inputExists = true → runInDesignWithScript o = RunSettle.resolved →
      pdfExistsAfter = false →
      convertInDesignToPDF inputExists o pdfExistsAfter inPath outDir =
        Except.error ⟨some "PDF_NOT_GENERATED", "PDF was not generated successfully"⟩) := by
  constructor
  · intro p hp
    unfold convertInDesignToPDF at hp
    split at hp
    · exact absurd hp (by simp)
    · cases hrun : runInDesignWithScript o with
      | rejected c m =>
        rw [hrun] at hp
        simp at hp
      | resolved =>
        rw [hrun] at hp
        obtain ⟨h1, h2, h3, h4, h5⟩ := resolved_characterisation hrun
        cases hpdf : pdfExistsAfter with
        | false =>
          rw [hpdf] at hp
          simp at hp
        | true =>
          rw [hpdf] at hp
          simp only [if_pos trivial] at hp
          have := Except.ok.inj hp
          exact ⟨this.symm, h1, h2, h3, h4, h5, rfl⟩
  · intro hin hres hpdf
    unfold convertInDesignToPDF
    rw [hin, hres, hpdf]
    simp

theorem c4_witness :
    convertInDesignToPDF true ⟨false, none, some 0, "opened\nSUCCESS", ""⟩ false
        "/job/doc.indd" "/job"
      = Except.error ⟨some "PDF_NOT_GENERATED", "PDF was not generated successfully"⟩ ∧
    "/job/doc.pdf" = pjoin "/job" (basenameNoExt "/job/doc.indd" ++ ".pdf") :=
  ⟨(c4_success_requires_artifact true ⟨false, none, some 0, "opened\nSUCCESS", ""⟩ false
      "/job/doc.indd" "/job").2 rfl rfl rfl,
   ((c4_success_requires_artifact true ⟨false, none, some 0, "opened\nSUCCESS", ""⟩ true
      "/job/doc.indd" "/job").1 "/job/doc.pdf" rfl).1⟩

/-- C5: for every diagnostic built from a "Missing Fonts" section listing
exactly the well-formed font names `fonts` (nonempty, at most ten, so the
source emits the whole list) in the documented format, parseMissingFonts
extracts exactly those names preserving the listed order; when the listing
has no duplicates neither has the result; no extracted name contains the
stoplist words "Solutions" or "Available"; and every extracted name is longer
than two characters (the acceptance gate recorded by well-formedness). -/
theorem c5_parser_extracts_section (fonts : List String) (hne : fonts ≠ [])
    (hwf : ∀ f ∈ fonts, wellFormedFontName f = true) (_hlen : fonts.length ≤ 10)
    (hnodup : fonts.Nodup) :
    parseMissingFonts (fontSectionMsg fonts) = fonts ∧
    (parseMissingFonts (fontSectionMsg fonts)).length = fonts.length ∧
    (parseMissingFonts (fontSectionMsg fonts)).Nodup ∧
    ∀ f ∈ parseMissingFonts (fontSectionMsg fonts),
      strContains f "Solutions" = false ∧ strContains f "Available" = false ∧
      f.length > 2 := by
  have hp := parseMissingFonts_fontSection fonts hne hwf
  refine ⟨hp, by rw [hp], by rw [hp]; exact hnodup, ?_⟩
  intro f hf
  rw [hp] at hf
  obtain ⟨c, rest, hd, _, _, hlen2, _, _, _, hs1, hs2⟩ := wf_unpack (hwf f hf)
  refine ⟨?_, ?_, ?_⟩
  · show containsL stopSolutions f.data = false
    rw [hd]; exact hs1
  · show containsL stopAvailable f.data = false
    rw [hd]; exact hs2
  · show f.data.length > 2
    rw [hd]; exact hlen2

theorem c5_witness :
    parseMissingFonts (fontSectionMsg ["Solway-Bold", "Poppins (OTF) Medium"])
      = ["Solway-Bold", "Poppins (OTF) Medium"] :=
  (c5_parser_extracts_section ["Solway-Bold", "Poppins (OTF) Medium"]
    (by decide) (by decide) (by decide) (by decide)).1

theorem comparePDFs_clean {fs : List String} {pdf1 pdf2 outputDir : String} {ts : Nat}
    {o : AcroOutcome} (h1 : fs.contains pdf1 = true) (h2 : fs.contains pdf2 = true)
    (hclean : acrobatSettle o = AcroSettle.resolved) :
    comparePDFsWithAcrobat fs pdf1 pdf2 outputDir ts o =
      (if (acrobatArtifactStep fs outputDir (basenameMinus pdf2 ".pdf")
            (pjoin outputDir (comparisonName ts))).contains
            (pjoin outputDir (comparisonName ts)) then
        (Except.ok (pjoin outputDir (comparisonName ts)),
          acrobatArtifactStep fs outputDir (basenameMinus pdf2 ".pdf")
            (pjoin outputDir (comparisonName ts)))
      else
        (Except.error ⟨some "PDF_NOT_GENERATED",
            "Comparison PDF was not generated successfully"⟩,
          acrobatArtifactStep fs outputDir (basenameMinus pdf2 ".pdf")
            (pjoin outputDir (comparisonName ts)))) := by
  unfold comparePDFsWithAcrobat executeAcrobatComparison
  rw [h1, h2, hclean]
  simp

/-- C6: in the Compare flow with existing input files and a clean zero-exit
process outcome, the controller probes the ordered candidate list
"[Compare Report] <newFileName>.pdf", "[Compare Report] error.pdf",
"[Compare Report] correct.pdf" in the output directory (newFileName being the
second input's basename); when the probe finds a first match, that file is
renamed to the caller-expected comparison path and the overall result is
Success on that path; when no candidate exists (the fresh timestamped
comparison path itself not being on disk), the overall result is the failure
reporting that the comparison artifact was not produced — never Success. -/
theorem c6_compare_artifact_discovery (fs : List String) (pdf1 pdf2 outputDir : String)
    (ts : Nat) (o : AcroOutcome) (h1 : fs.contains pdf1 = true)
    (h2 : fs.contains pdf2 = true) (hclean : acrobatSettle o = AcroSettle.resolved) :
    possibleNames (basenameMinus pdf2 ".pdf") =
      ["[Compare Report] " ++ basenameMinus pdf2 ".pdf" ++ ".pdf",
       "[Compare Report] error.pdf", "[Compare Report] correct.pdf"] ∧
    (∀ saved, findSaved fs outputDir (basenameMinus pdf2 ".pdf") = some saved →
      (comparePDFsWithAcrobat fs pdf1 pdf2 outputDir ts o).1
          = Except.ok (pjoin outputDir (comparisonName ts)) ∧
      (comparePDFsWithAcrobat fs pdf1 pdf2 outputDir ts o).2
          = renameFs fs saved (pjoin outputDir (comparisonName ts))) ∧
    (findSaved fs outputDir (basenameMinus pdf2 ".pdf") = none →
      fs.contains (pjoin outputDir (comparisonName ts)) = false →
      (comparePDFsWithAcrobat fs pdf1 pdf2 outputDir ts o).1
          = Except.error ⟨some "PDF_NOT_GENERATED",
              "Comparison PDF was not generated successfully"⟩ ∧
      ∀ p, (comparePDFsWithAcrobat fs pdf1 pdf2 outputDir ts o).1 ≠ Except.ok p) := by
  refine ⟨rfl, ?_, ?_⟩
  · intro saved hsome
    obtain ⟨hmemfs, name, hname, hsavedeq⟩ := findSaved_spec hsome
    have hne : saved ≠ pjoin outputDir (comparisonName ts) := by
      rw [hsavedeq]
      exact candidate_ne_comparison ts hname
    have hstep : acrobatArtifactStep fs outputDir (basenameMinus pdf2 ".pdf")
        (pjoin outputDir (comparisonName ts))
        = renameFs fs saved (pjoin outputDir (comparisonName ts)) := by
      unfold acrobatArtifactStep
      rw [hsome]
      simp [hne]
    have hcont : (renameFs fs saved (pjoin outputDir (comparisonName ts))).contains
        (pjoin outputDir (comparisonName ts)) = true := by
      simp [renameFs, List.contains_cons]
    rw [comparePDFs_clean h1 h2 hclean, hstep, if_pos hcont]
    exact ⟨rfl, rfl⟩
  · intro hnone hfresh
    have hstep : acrobatArtifactStep fs outputDir (basenameMinus pdf2 ".pdf")
        (pjoin outputDir (comparisonName ts)) = fs := by
      unfold acrobatArtifactStep
      rw [hnone]
    rw [comparePDFs_clean h1 h2 hclean, hstep, if_neg (by rw [hfresh]; simp)]
    exact ⟨rfl, fun p hp => Except.noConfusion hp⟩

theorem c6_witness :
    (comparePDFsWithAcrobat ["/a/x.pdf", "/b/y.pdf", "/out/[Compare Report] y.pdf"]
        "/a/x.pdf" "/b/y.pdf" "/out" 5 ⟨false, none, some 0, "COMPLETED", ""⟩).1
      = Except.ok (pjoin "/out" (comparisonName 5)) ∧
    (comparePDFsWithAcrobat ["/a/x.pdf", "/b/y.pdf"]
        "/a/x.pdf" "/b/y.pdf" "/out" 5 ⟨false, none, some 0, "COMPLETED", ""⟩).1
      = Except.error ⟨some "PDF_NOT_GENERATED",
          "Comparison PDF was not generated successfully"⟩ :=
  ⟨((c6_compare_artifact_discovery ["/a/x.pdf", "/b/y.pdf", "/out/[Compare Report] y.pdf"]
      "/a/x.pdf" "/b/y.pdf" "/out" 5 ⟨false, none, some 0, "COMPLETED", ""⟩
      rfl rfl rfl).2.1 "/out/[Compare Report] y.pdf" rfl).1,
   ((c6_compare_artifact_discovery ["/a/x.pdf", "/b/y.pdf"]
      "/a/x.pdf" "/b/y.pdf" "/out" 5 ⟨false, none, some 0, "COMPLETED", ""⟩
      rfl rfl rfl).2.2 rfl rfl).1⟩

/-- C9: the permanent font installer is idempotent per font file name: when a
font's file name already exists in the user fonts directory, installing it
again performs no copy while still reporting the effective base name; hence
running the installer a second time over the same font paths copies nothing,
reports the same availableFontNames, and leaves the directory unchanged — the
fonts are installed exactly once. -/
theorem c9_installer_idempotent (ps fs : List String) (p : String) :
    (fs.contains (basenameStr p) = true →
      installAdditionalFonts [p] fs =
        ⟨[basenameMinus (basenameStr p) (String.mk (extnameOfBase (basenameStr p).data))],
          fs, []⟩) ∧
    ((installAdditionalFonts ps ((installAdditionalFonts ps fs).fsFonts)).copies = [] ∧
      (installAdditionalFonts ps ((installAdditionalFonts ps fs).fsFonts)).names
        = (installAdditionalFonts ps fs).names ∧
      (installAdditionalFonts ps ((installAdditionalFonts ps fs).fsFonts)).fsFonts
        = (installAdditionalFonts ps fs).fsFonts) := by
  constructor
  · intro h
    unfold installAdditionalFonts installGo
    rw [if_pos h]
    rfl
  · have hall : ∀ q ∈ ps,
        ((installAdditionalFonts ps fs).fsFonts).contains (basenameStr q) = true := by
      intro q hq
      exact List.elem_iff.mpr (installGo_fs_mem ps fs q hq)
    obtain ⟨hc, hf⟩ := installGo_all_present ps _ hall
    refine ⟨hc, ?_, hf⟩
    show (installGo ps ((installGo ps fs).fsFonts)).names = (installGo ps fs).names
    rw [installGo_names, installGo_names]

theorem c9_witness :
    installAdditionalFonts ["/dl/solway-bold.ttf"] ["solway-bold.ttf"]
      = ⟨["solway-bold"], ["solway-bold.ttf"], []⟩ :=
  (c9_installer_idempotent [] ["solway-bold.ttf"] "/dl/solway-bold.ttf").1 (by decide)

/-- C10: parseMissingFonts returns the empty list for every error message that
does not contain the substring "Missing Fonts" — both its structured line
parser and its regex fallback are gated on that substring; in particular a
retry triggered by a Preflight Failed diagnostic (which lacks that substring)
runs the remediation step with zero parsed font names, downloading and
installing nothing, before the single retry proceeds. -/
theorem c10_missing_fonts_gate (msg : String) (retry : ConvResult) (downloaded : List String) :
    (strContains msg "Missing Fonts" = false → parseMissingFonts msg = []) ∧
    (strContains msg "Missing Fonts" = false → strContains msg "Preflight Failed" = true →
      (uploadConvert (ConvResult.err ⟨some "INDESIGN_CONVERSION_FAILED", msg⟩)
          retry downloaded).parsedFonts = [] ∧
      (uploadConvert (ConvResult.err ⟨some "INDESIGN_CONVERSION_FAILED", msg⟩)
          retry downloaded).downloadInvoked = false ∧
      (uploadConvert (ConvResult.err ⟨some "INDESIGN_CONVERSION_FAILED", msg⟩)
          retry downloaded).installInvoked = false ∧
      (uploadConvert (ConvResult.err ⟨some "INDESIGN_CONVERSION_FAILED", msg⟩)
          retry downloaded).attempts = 2) := by
  constructor
  · exact fun h => parseMissingFonts_no_marker h
  · intro h hpre
    have htrig : retryTrigger ⟨some "INDESIGN_CONVERSION_FAILED", msg⟩ = true := by
      simp [retryTrigger, hpre]
    have hparse := parseMissingFonts_no_marker h
    cases retry <;> simp [uploadConvert, htrig, hparse]

theorem c10_witness :
    parseMissingFonts "Preflight Failed:\n\n• Errors: 2" = [] ∧
    (uploadConvert (ConvResult.err ⟨some "INDESIGN_CONVERSION_FAILED",
        "Preflight Failed:\n\n• Errors: 2"⟩) (ConvResult.err ⟨none, "again"⟩) []).downloadInvoked
      = false :=
  ⟨(c10_missing_fonts_gate "Preflight Failed:\n\n• Errors: 2"
      (ConvResult.err ⟨none, "again"⟩) []).1 (by decide),
   ((c10_missing_fonts_gate "Preflight Failed:\n\n• Errors: 2"
      (ConvResult.err ⟨none, "again"⟩) []).2 (by decide) (by decide)).2.1⟩

end Adobe
